import Mathlib

/-!
Verification of the go-grpc-file-upload server (`cmd/server/main.go`) against
its specification.

The embedding models:
* the SHA-256 digest as used through Go's `crypto/sha256` incremental
  `hash.Hash` interface (`New` / `Write` / `Sum`), with the block-buffering
  behaviour of the library: bytes are Nat values, 32-bit words are Nat
  values reduced modulo 2^32;
* `sanitizeFilename`, including Go's `filepath.Base` with the Unix path
  separator `'/'` (the server is a Linux deployment; on Unix a backslash is
  an ordinary filename character);
* the streaming `Server.Upload` handler as a recursive function over the
  list of received events (messages interleaved with an observed context
  cancellation), threading the open-file/sink state, the running hasher,
  the byte counter and a small association-list file system;
* the unary `Server.UploadFile` handler.
-/

namespace FileUpload

/-! ## SHA-256 (Go `crypto/sha256`) -/

/-- 2^32, the modulus for 32-bit word arithmetic. -/
def M32 : Nat := 4294967296

/-- 32-bit addition. -/
def add32 (a b : Nat) : Nat := (a + b) % M32

/-- 32-bit rotate right by `n`. -/
def rotr32 (n x : Nat) : Nat := ((x >>> n) ||| (x <<< (32 - n))) % M32

/-- SHA-256 `Ch` function. -/
def ch32 (x y z : Nat) : Nat := (x &&& y) ^^^ ((x ^^^ 4294967295) &&& z)

/-- SHA-256 `Maj` function. -/
def maj32 (x y z : Nat) : Nat := (x &&& y) ^^^ (x &&& z) ^^^ (y &&& z)

/-- SHA-256 big Sigma0. -/
def bigS0 (x : Nat) : Nat := rotr32 2 x ^^^ rotr32 13 x ^^^ rotr32 22 x

/-- SHA-256 big Sigma1. -/
def bigS1 (x : Nat) : Nat := rotr32 6 x ^^^ rotr32 11 x ^^^ rotr32 25 x

/-- SHA-256 small sigma0. -/
def smallS0 (x : Nat) : Nat := rotr32 7 x ^^^ rotr32 18 x ^^^ (x >>> 3)

/-- SHA-256 small sigma1. -/
def smallS1 (x : Nat) : Nat := rotr32 17 x ^^^ rotr32 19 x ^^^ (x >>> 10)

/-- The 64 SHA-256 round constants. -/
def K256 : List Nat :=
  [1116352408, 1899447441, 3049323471, 3921009573, 961987163,
   1508970993, 2453635748, 2870763221, 3624381080, 310598401,
   607225278, 1426881987, 1925078388, 2162078206, 2614888103,
   3248222580, 3835390401, 4022224774, 264347078, 604807628,
   770255983, 1249150122, 1555081692, 1996064986, 2554220882,
   2821834349, 2952996808, 3210313671, 3336571891, 3584528711,
   113926993, 338241895, 666307205, 773529912, 1294757372,
   1396182291, 1695183700, 1986661051, 2177026350, 2456956037,
   2730485921, 2820302411, 3259730800, 3345764771, 3516065817,
   3600352804, 4094571909, 275423344, 430227734, 506948616,
   659060556, 883997877, 958139571, 1322822218, 1537002063,
   1747873779, 1955562222, 2024104815, 2227730452, 2361852424,
   2428436474, 2756734187, 3204031479, 3329325298]

/-- The initial SHA-256 chaining value. -/
def initH : List Nat :=
  [1779033703, 3144134277, 1013904242, 2773480762,
   1359893119, 2600822924, 528734635, 1541459225]

/-- Pack a 64-byte block into 16 big-endian 32-bit words. -/
def toWords : List Nat → List Nat
  | b0 :: b1 :: b2 :: b3 :: rest =>
      (((b0 <<< 24) ||| (b1 <<< 16) ||| (b2 <<< 8) ||| b3) % M32) :: toWords rest
  | _ => []

/-- One message-schedule extension step: append
`sigma1 w[t-2] + w[t-7] + sigma0 w[t-15] + w[t-16]`. -/
def schedStep (ws : List Nat) : List Nat :=
  ws ++ [add32 (add32 (smallS1 (ws.getD (ws.length - 2) 0)) (ws.getD (ws.length - 7) 0))
               (add32 (smallS0 (ws.getD (ws.length - 15) 0)) (ws.getD (ws.length - 16) 0))]

/-- Expand 16 words to the 64-entry message schedule. -/
def sched (ws : List Nat) : List Nat :=
  (List.range 48).foldl (fun acc _ => schedStep acc) ws

/-- One SHA-256 round on the eight working variables. -/
def roundStep (st : List Nat) (w k : Nat) : List Nat :=
  match st with
  | [a, b, c, d, e, f, g, h] =>
      let t1 := add32 h (add32 (bigS1 e) (add32 (ch32 e f g) (add32 k w)))
      let t2 := add32 (bigS0 a) (maj32 a b c)
      [add32 t1 t2, a, b, c, add32 d t1, e, f, g]
  | other => other

/-- The SHA-256 compression function on one 64-byte block. -/
def compress (h : List Nat) (block : List Nat) : List Nat :=
  let ws := sched (toWords block)
  let st := (ws.zip K256).foldl (fun s p => roundStep s p.1 p.2) h
  (h.zip st).map (fun p => add32 p.1 p.2)

/-- Block loop with an explicit fuel (any fuel at least `bs.length` gives the
fixpoint, since every iteration consumes 64 bytes). -/
def processBlocksAux : Nat → List Nat → List Nat → List Nat × List Nat
  | 0, h, bs => (h, bs)
  | fuel + 1, h, bs =>
      if 64 ≤ bs.length then
        processBlocksAux fuel (compress h (bs.take 64)) (bs.drop 64)
      else
        (h, bs)

/-- Process every complete 64-byte block of `bs`, returning the new chaining
value and the unconsumed remainder (fewer than 64 bytes).  This is the block
loop inside `crypto/sha256`'s `Write`. -/
def processBlocks (h : List Nat) (bs : List Nat) : List Nat × List Nat :=
  processBlocksAux bs.length h bs

/-- The incremental hasher state of Go's `crypto/sha256`: chaining value,
buffered partial block, total bytes written. -/
structure Digest where
  h : List Nat
  buf : List Nat
  len : Nat
deriving DecidableEq, Repr

/-- `sha256.New()`. -/
def Digest.init : Digest := ⟨initH, [], 0⟩

/-- `hash.Hash.Write`: buffer the chunk and consume complete blocks. -/
def Digest.write (d : Digest) (chunk : List Nat) : Digest :=
  let p := processBlocks d.h (d.buf ++ chunk)
  ⟨p.1, p.2, d.len + chunk.length⟩

/-- Big-endian 8-byte encoding of the 64-bit message bit length. -/
def lenBytes64 (m : Nat) : List Nat :=
  [(m >>> 56) % 256, (m >>> 48) % 256, (m >>> 40) % 256, (m >>> 32) % 256,
   (m >>> 24) % 256, (m >>> 16) % 256, (m >>> 8) % 256, m % 256]

/-- SHA-256 padding for a message of `len` bytes: `128` (`0x80`), zeros to 56 mod 64,
then the bit length. -/
def padBytes (len : Nat) : List Nat :=
  128 :: List.replicate ((119 - len % 64) % 64) 0 ++ lenBytes64 (8 * len)

/-- Serialize the eight chaining words to 32 big-endian bytes. -/
def wordsToBytes (ws : List Nat) : List Nat :=
  (ws.map (fun w => [(w >>> 24) % 256, (w >>> 16) % 256, (w >>> 8) % 256, w % 256])).flatten

/-- `hash.Hash.Sum(nil)`: pad the buffered tail and return the digest bytes.
`Sum` does not mutate the receiver. -/
def Digest.sum (d : Digest) : List Nat :=
  wordsToBytes (processBlocks d.h (d.buf ++ padBytes d.len)).1

/-- One-shot SHA-256 of a byte sequence. -/
def sha256Bytes (msg : List Nat) : List Nat := (Digest.init.write msg).sum

/-- Lowercase hex character for a value below 16. -/
def hexChar (n : Nat) : Char := if n < 10 then Char.ofNat (48 + n) else Char.ofNat (87 + n)

/-- `hex.EncodeToString`: two lowercase hex characters per byte. -/
def hexDigest (bs : List Nat) : String :=
  String.mk ((bs.map (fun b => [hexChar ((b >>> 4) % 16), hexChar (b % 16)])).flatten)

/-- ASCII bytes of a string, for concrete test inputs. -/
def strBytes (s : String) : List Nat := s.toList.map Char.toNat

/-! ## Filename sanitization (`sanitizeFilename` and `filepath.Base`) -/

/-- Strip trailing `'/'` separators (the first loop of `filepath.Base`). -/
def stripTrailingSep (p : List Char) : List Char :=
  (p.reverse.dropWhile (fun c => c == '/')).reverse

/-- The suffix after the last `'/'` (the "find the last element" step of
`filepath.Base`). -/
def afterLastSep (p : List Char) : List Char :=
  (p.reverse.takeWhile (fun c => !(c == '/'))).reverse

/-- Go's `filepath.Base` on Unix: `'/'` is the only path separator, the
volume name is always empty. -/
def goBase (p : List Char) : List Char :=
  if p = [] then ['.']
  else
    let q := stripTrailingSep p
    let r := afterLastSep q
    if r = [] then ['/'] else r

/-- `strings.ReplaceAll(s, "/", "_")` on a single character. -/
def replSlash (c : Char) : Char := if c = '/' then '_' else c

/-- `strings.ReplaceAll(s, "\\", "_")` on a single character. -/
def replBackslash (c : Char) : Char := if c = '\\' then '_' else c

/-- `sanitizeFilename` from the server, on character lists. -/
def sanitizeList (f : List Char) : List Char :=
  let base := goBase f
  let b1 := base.map replSlash
  let b2 := b1.map replBackslash
  if b2 = [] ∨ b2 = ['.'] ∨ b2 = ['.', '.'] then "unnamed_file".toList else b2

/-- `sanitizeFilename` on strings. -/
def sanitizeFilename (f : String) : String := String.mk (sanitizeList f.toList)

/-! ## The streaming `Server.Upload` handler -/

/-- The upload root directory. -/
def uploadDir : String := "uploads"

/-- `filepath.Join(uploadDir, filename)` for an already-sanitized filename
(no separators, not empty and not `"."`/`".."`), where it is plain
concatenation with one separator. -/
def safeJoin (filename : String) : String := uploadDir ++ "/" ++ filename

/-- The `oneof` payload of an `UploadRequest`. -/
inductive Payload where
  | metadata (filename title : String)
  | chunk (data : List Nat)
  | finishCommit (hash : String)
  | unknown
deriving DecidableEq, Repr

/-- One loop iteration's input: either a received message, or a received
message at which the context's cancellation is observed (the `select` on
`ctx.Done()` at the top of the loop body, which abandons the message). -/
inductive Event where
  | msg (p : Payload)
  | cancel
deriving DecidableEq, Repr

/-- The error outcomes of the handler, by connect error code. -/
inductive UploadErr where
  | invalidArgument (msg : String)
  | internal (msg : String)
  | dataLoss (msg : String)
  | canceled
  | streamFailure
deriving DecidableEq, Repr

/-- `UploadResponse`. -/
structure UploadResponse where
  message : String
  size : Nat
  hashOk : Bool
deriving DecidableEq, Repr

instance {ε α : Type} [DecidableEq ε] [DecidableEq α] : DecidableEq (Except ε α) :=
  fun a b =>
    match a, b with
    | .error e, .error f =>
        if h : e = f then isTrue (h ▸ rfl) else isFalse fun hc => h (by injection hc)
    | .ok x, .ok y =>
        if h : x = y then isTrue (h ▸ rfl) else isFalse fun hc => h (by injection hc)
    | .error _, .ok _ => isFalse fun hc => Except.noConfusion hc
    | .ok _, .error _ => isFalse fun hc => Except.noConfusion hc

/-- The file system visible to one session: an association list from path to
contents. -/
abbrev FS : Type := List (String × List Nat)

/-- Remove the entry at `p`, if any (`os.Remove`). -/
def fsRemove (fs : FS) (p : String) : FS := fs.filter (fun e => e.1 != p)

/-- Create or truncate the file at `p` (`os.Create` / `os.WriteFile`). -/
def fsSet (fs : FS) (p : String) (c : List Nat) : FS := (p, c) :: fsRemove fs p

/-- Look up the contents at `p`. -/
def fsGet (fs : FS) (p : String) : Option (List Nat) :=
  (fs.find? (fun e => e.1 == p)).map (fun e => e.2)

/-- Append to the open file at `p` (`file.Write` on the open handle); the
session only writes to the file it created, so the entry is present. -/
def fsAppend (fs : FS) (p : String) (c : List Nat) : FS :=
  match fsGet fs p with
  | some old => fsSet fs p (old ++ c)
  | none => fs

/-- The handler's local state: the open file (its resolved path, `none`
before metadata), the sanitized `filename` variable, `totalSize`, the
running `hasher`, and the file system it acts on. -/
structure SessionState where
  file : Option String
  filename : String
  totalSize : Nat
  hasher : Digest
  fs : FS
deriving DecidableEq, Repr

/-- The state of a fresh session over the file system `fs`. -/
def initialState (fs : FS) : SessionState := ⟨none, "", 0, Digest.init, fs⟩

/-- The streaming `Server.Upload` handler, as a function of the received
events. `endErr` tells whether the stream ends with a transport error
(`stream.Err()` non-nil) after the events are exhausted. Mirrors the
`for stream.Receive()` loop body case by case. -/
def runUpload (st : SessionState) : List Event → Bool → Except UploadErr UploadResponse × FS
  | [], endErr =>
      if endErr then (.error .streamFailure, st.fs)
      else (.error (.invalidArgument "stream closed without commit"), st.fs)
  | .cancel :: _, _ =>
      match st.file with
      | some path => (.error .canceled, fsRemove st.fs path)
      | none => (.error .canceled, st.fs)
  | .msg p :: rest, endErr =>
      match p with
      | .metadata fname _title =>
          match st.file with
          | some _ => (.error (.invalidArgument "metadata already received"), st.fs)
          | none =>
              let filename := sanitizeFilename fname
              let safePath := safeJoin filename
              runUpload ⟨some safePath, filename, st.totalSize, st.hasher, fsSet st.fs safePath []⟩
                rest endErr
      | .chunk data =>
          match st.file with
          | none => (.error (.invalidArgument "metadata must be sent first"), st.fs)
          | some path =>
              runUpload ⟨some path, st.filename, st.totalSize + data.length,
                  st.hasher.write data, fsAppend st.fs path data⟩ rest endErr
      | .finishCommit clientHash =>
          match st.file with
          | none => (.error (.invalidArgument "no file data received"), st.fs)
          | some path =>
              let serverHash := hexDigest st.hasher.sum
              if serverHash ≠ clientHash then
                (.error (.dataLoss "checksum mismatch"), fsRemove st.fs path)
              else
                (.ok ⟨"Upload successful and verified", st.totalSize, true⟩, st.fs)
      | .unknown => (.error (.invalidArgument "unknown message type"), st.fs)

/-- The events of a list of data chunks. -/
def chunkEvents (chunks : List (List Nat)) : List Event :=
  chunks.map (fun c => Event.msg (Payload.chunk c))

/-! ## The unary `Server.UploadFile` handler -/

/-- The unary `Server.UploadFile` handler: sanitize, hash the whole buffer,
record whether the digests match, write the file, and answer `ok` with the
`hashOk` flag. -/
def uploadFile (fname _title : String) (data : List Nat) (claimedSha : String) (fs : FS) :
    Except UploadErr UploadResponse × FS :=
  let filename := sanitizeFilename fname
  let safePath := safeJoin filename
  let serverHash := hexDigest (sha256Bytes data)
  let hashOk := serverHash == claimedSha
  (.ok ⟨"ok", data.length, hashOk⟩, fsSet fs safePath data)

/-! ## Lemmas: the block loop -/

/-- The fuel is irrelevant once it is at least the number of buffered bytes. -/
theorem processBlocksAux_irrel (f1 : Nat) :
    ∀ (f2 : Nat) (h bs : List Nat), bs.length ≤ f1 → bs.length ≤ f2 →
      processBlocksAux f1 h bs = processBlocksAux f2 h bs := by
  induction f1 with
  | zero =>
      intro f2 h bs hb1 _
      have hbs : bs = [] := List.eq_nil_of_length_eq_zero (Nat.le_zero.mp hb1)
      subst hbs
      cases f2 with
      | zero => rfl
      | succ m => simp [processBlocksAux]
  | succ n ih =>
      intro f2 h bs hb1 hb2
      cases f2 with
      | zero =>
          have hbs : bs = [] := List.eq_nil_of_length_eq_zero (Nat.le_zero.mp hb2)
          subst hbs
          simp [processBlocksAux]
      | succ m =>
          by_cases h64 : 64 ≤ bs.length
          · simp only [processBlocksAux, if_pos h64]
            exact ih m (compress h (bs.take 64)) (bs.drop 64)
              (by simp [List.length_drop]; omega) (by simp [List.length_drop]; omega)
          · simp only [processBlocksAux, if_neg h64]

/-- The loop on fewer than 64 bytes is the identity. -/
theorem processBlocksAux_stop (fuel : Nat) (h bs : List Nat) (hlt : ¬ 64 ≤ bs.length) :
    processBlocksAux fuel h bs = (h, bs) := by
  cases fuel with
  | zero => rfl
  | succ n => simp [processBlocksAux, hlt]

/-- Unfolding equation: fewer than 64 bytes. -/
theorem processBlocks_lt (h bs : List Nat) (hlt : bs.length < 64) :
    processBlocks h bs = (h, bs) :=
  processBlocksAux_stop _ _ _ (by omega)

/-- One step of the loop when a complete block is buffered. -/
theorem processBlocksAux_succ (fuel : Nat) (h bs : List Nat) (h64 : 64 ≤ bs.length) :
    processBlocksAux (fuel + 1) h bs
      = processBlocksAux fuel (compress h (bs.take 64)) (bs.drop 64) := by
  simp [processBlocksAux, h64]

/-- Unfolding equation: at least one complete block. -/
theorem processBlocks_ge (h bs : List Nat) (h64 : 64 ≤ bs.length) :
    processBlocks h bs = processBlocks (compress h (bs.take 64)) (bs.drop 64) := by
  unfold processBlocks
  obtain ⟨n, hn⟩ : ∃ n, bs.length = n + 1 := ⟨bs.length - 1, by omega⟩
  rw [hn, processBlocksAux_succ n h bs h64]
  exact processBlocksAux_irrel n ((bs.drop 64).length) _ _
    (by rw [List.length_drop]; omega) (Nat.le_refl _)

/-- The remainder left by the block loop is a partial block. -/
theorem processBlocks_snd_lt (h bs : List Nat) : (processBlocks h bs).2.length < 64 := by
  by_cases h64 : 64 ≤ bs.length
  · rw [processBlocks_ge h bs h64]
    exact processBlocks_snd_lt _ _
  · rw [processBlocks_lt h bs (by omega)]
    show bs.length < 64
    omega
termination_by bs.length
decreasing_by simp [List.length_drop]; omega

/-- The block loop commutes with appending further input: running it on
`xs ++ ys` is running it on `xs`, then on the remainder followed by `ys`. -/
theorem processBlocks_append (h : List Nat) (xs ys : List Nat) :
    processBlocks h (xs ++ ys)
      = processBlocks (processBlocks h xs).1 ((processBlocks h xs).2 ++ ys) := by
  by_cases h64 : 64 ≤ xs.length
  · have hx : 64 ≤ (xs ++ ys).length := by simp [List.length_append]; omega
    rw [processBlocks_ge h (xs ++ ys) hx, processBlocks_ge h xs h64,
      List.take_append_of_le_length h64, List.drop_append_of_le_length h64]
    exact processBlocks_append (compress h (xs.take 64)) (xs.drop 64) ys
  · rw [processBlocks_lt h xs (by omega)]
termination_by xs.length
decreasing_by simp [List.length_drop]; omega

/-! ## Lemmas: the incremental hasher -/

/-- Two successive `Write`s are one `Write` of the concatenation. -/
theorem Digest.write_write (d : Digest) (a b : List Nat) :
    (d.write a).write b = d.write (a ++ b) := by
  simp only [Digest.write]
  rw [← List.append_assoc, processBlocks_append d.h (d.buf ++ a) b]
  simp [List.length_append, Nat.add_assoc]

/-- Writing nothing to a well-formed hasher state changes nothing. -/
theorem Digest.write_nil (d : Digest) (hb : d.buf.length < 64) : d.write [] = d := by
  simp only [Digest.write, List.append_nil, List.length_nil, Nat.add_zero]
  rw [processBlocks_lt _ _ hb]

/-- `Write` always leaves a partial block in the buffer. -/
theorem Digest.write_buf_lt (d : Digest) (c : List Nat) : (d.write c).buf.length < 64 := by
  simp only [Digest.write]
  exact processBlocks_snd_lt _ _

/-- Folding `Write` over a chunk list is one `Write` of the concatenation. -/
theorem foldl_write_eq (chunks : List (List Nat)) :
    ∀ d : Digest, d.buf.length < 64 →
      chunks.foldl Digest.write d = d.write chunks.flatten := by
  induction chunks with
  | nil =>
      intro d hd
      simp [Digest.write_nil d hd]
  | cons c cs ih =>
      intro d hd
      simp only [List.foldl_cons, List.flatten_cons]
      rw [ih (d.write c) (Digest.write_buf_lt d c), Digest.write_write]

/-! ## Lemmas: sanitization -/

/-- `dropWhile` is the identity when no element satisfies the predicate. -/
theorem dropWhile_eq_self_of_none {p : Char → Bool} (l : List Char)
    (h : ∀ c ∈ l, p c = false) : List.dropWhile p l = l := by
  cases l with
  | nil => rfl
  | cons a t => simp [List.dropWhile_cons, h a (List.mem_cons_self a t)]

/-- `takeWhile` is the identity when every element satisfies the predicate. -/
theorem takeWhile_eq_self_of_all {p : Char → Bool} (l : List Char)
    (h : ∀ c ∈ l, p c = true) : List.takeWhile p l = l := by
  induction l with
  | nil => rfl
  | cons a t ih =>
      simp [List.takeWhile_cons, h a (List.mem_cons_self a t),
        ih (fun c hc => h c (List.mem_cons_of_mem a hc))]

/-- `takeWhile` of `l ++ x :: r` stops exactly at `x` when all of `l`
satisfies the predicate and `x` does not. -/
theorem takeWhile_append_stop {p : Char → Bool} (l : List Char) (x : Char) (r : List Char)
    (hl : ∀ c ∈ l, p c = true) (hx : p x = false) :
    List.takeWhile p (l ++ x :: r) = l := by
  induction l with
  | nil => simp [List.takeWhile_cons, hx]
  | cons a t ih =>
      simp [List.takeWhile_cons, hl a (List.mem_cons_self a t),
        ih (fun c hc => hl c (List.mem_cons_of_mem a hc))]

/-- `filepath.Base` of a name with no slash is the name itself. -/
theorem goBase_of_no_slash (leaf : List Char) (hne : leaf ≠ []) (hns : '/' ∉ leaf) :
    goBase leaf = leaf := by
  have hall : ∀ c ∈ leaf.reverse, (c == '/') = false := by
    intro c hc
    have : c ≠ '/' := fun h => hns (h ▸ List.mem_reverse.mp hc)
    simpa using this
  have hstrip : stripTrailingSep leaf = leaf := by
    unfold stripTrailingSep
    rw [dropWhile_eq_self_of_none leaf.reverse hall, List.reverse_reverse]
  have hafter : afterLastSep leaf = leaf := by
    unfold afterLastSep
    rw [takeWhile_eq_self_of_all leaf.reverse (by intro c hc; simpa using hall c hc),
      List.reverse_reverse]
  simp only [goBase]
  rw [if_neg hne, hstrip, hafter, if_neg hne]

/-- `filepath.Base` discards everything before the last `'/'`. -/
theorem goBase_append_slash (pre leaf : List Char) (hne : leaf ≠ []) (hns : '/' ∉ leaf) :
    goBase (pre ++ '/' :: leaf) = leaf := by
  obtain ⟨a, t, hat⟩ : ∃ a t, leaf.reverse = a :: t := by
    cases h : leaf.reverse with
    | nil => exact absurd (by simpa using congrArg List.reverse h) hne
    | cons a t => exact ⟨a, t, rfl⟩
  have hrev : (pre ++ '/' :: leaf).reverse = leaf.reverse ++ '/' :: pre.reverse := by
    simp
  have hall : ∀ c ∈ leaf.reverse, (c == '/') = false := by
    intro c hc
    have : c ≠ '/' := fun h => hns (h ▸ List.mem_reverse.mp hc)
    simpa using this
  have hane : (a == '/') = false := hall a (hat ▸ List.mem_cons_self a t)
  have hstrip : stripTrailingSep (pre ++ '/' :: leaf) = pre ++ '/' :: leaf := by
    unfold stripTrailingSep
    rw [hrev, hat]
    rw [List.cons_append, List.dropWhile_cons, hane]
    simp only [Bool.false_eq_true, if_false]
    rw [← List.cons_append, ← hat, ← hrev, List.reverse_reverse]
  have hafter : afterLastSep (pre ++ '/' :: leaf) = leaf := by
    unfold afterLastSep
    rw [hrev, takeWhile_append_stop leaf.reverse '/' pre.reverse
      (by intro c hc; simpa using hall c hc) (by simp), List.reverse_reverse]
  simp only [goBase]
  rw [if_neg (by simp), hstrip, hafter, if_neg hne]

/-- `replSlash` never produces a slash. -/
theorem replSlash_ne_slash (c : Char) : replSlash c ≠ '/' := by
  unfold replSlash
  split <;> simp_all

/-- `replBackslash` never produces a backslash. -/
theorem replBackslash_ne_backslash (c : Char) : replBackslash c ≠ '\\' := by
  unfold replBackslash
  split <;> simp_all

/-- `replBackslash` produces a slash only from a slash. -/
theorem replBackslash_eq_slash {c : Char} (h : replBackslash c = '/') : c = '/' := by
  unfold replBackslash at h
  split at h <;> simp_all

/-- The sanitized name has no separator characters and is never empty,
`"."` or `".."`. -/
theorem sanitizeList_spec (f : List Char) :
    '/' ∉ sanitizeList f ∧ '\\' ∉ sanitizeList f ∧
    sanitizeList f ≠ [] ∧ sanitizeList f ≠ ['.'] ∧ sanitizeList f ≠ ['.', '.'] := by
  simp only [sanitizeList]
  split
  · refine ⟨?_, ?_, ?_, ?_, ?_⟩ <;> decide
  · rename_i hcond
    push_neg at hcond
    refine ⟨?_, ?_, hcond.1, hcond.2.1, hcond.2.2⟩
    · intro hmem
      obtain ⟨b, hb, hbe⟩ := List.mem_map.mp hmem
      obtain ⟨a, _, hae⟩ := List.mem_map.mp hb
      exact replSlash_ne_slash a (by rw [hae]; exact replBackslash_eq_slash hbe)
    · intro hmem
      obtain ⟨b, _, hbe⟩ := List.mem_map.mp hmem
      exact replBackslash_ne_backslash b hbe

/-! ## Lemmas: the session file system -/

/-- Appending to the single file of a singleton file system. -/
theorem fsAppend_single (path : String) (content c : List Nat) :
    fsAppend [(path, content)] path c = [(path, content ++ c)] := by
  simp [fsAppend, fsGet, fsSet, fsRemove, List.find?]

/-- Removing the single file of a singleton file system. -/
theorem fsRemove_single (path : String) (c : List Nat) : fsRemove [(path, c)] path = [] := by
  simp [fsRemove, List.filter]

/-- Creating a file in the empty file system. -/
theorem fsSet_nil (path : String) (c : List Nat) : fsSet [] path c = [(path, c)] := by
  simp [fsSet, fsRemove, List.filter]

/-! ## Lemmas: the streaming handler -/

/-- Processing a run of chunk messages in the receiving state: the file
grows by the concatenation, the hasher absorbs the chunks in order, and the
byte counter grows by the total length. -/
theorem runUpload_chunks (chunks : List (List Nat)) :
    ∀ (path filename : String) (size : Nat) (d : Digest) (content : List Nat)
      (rest : List Event) (endErr : Bool),
      runUpload ⟨some path, filename, size, d, [(path, content)]⟩
          (chunkEvents chunks ++ rest) endErr
        = runUpload ⟨some path, filename, size + (chunks.map List.length).sum,
            chunks.foldl Digest.write d, [(path, content ++ chunks.flatten)]⟩ rest endErr := by
  induction chunks with
  | nil =>
      intro path filename size d content rest endErr
      simp [chunkEvents]
  | cons c cs ih =>
      intro path filename size d content rest endErr
      simp only [chunkEvents, List.map_cons, List.cons_append, runUpload]
      rw [fsAppend_single path content c]
      simp only [List.append_eq]
      rw [show List.map (fun c => Event.msg (Payload.chunk c)) cs = chunkEvents cs from rfl,
        ih path filename (size + c.length) (d.write c) (content ++ c) rest endErr]
      simp only [List.sum_cons, List.foldl_cons, List.flatten_cons,
        List.append_assoc, Nat.add_assoc]

/-! ## Claim theorems -/

/-- C2: For every byte sequence and every way of splitting it into
chunks, feeding the chunks in order to the incremental hasher (one `Write`
per chunk) and then finalizing yields exactly the digest of the whole
sequence fed as a single chunk: the incremental computation is
order-preserving and neither skips, reorders, nor duplicates a chunk. -/
theorem sha256_chunking_invariant (chunks : List (List Nat)) :
    (chunks.foldl Digest.write Digest.init).sum = sha256Bytes chunks.flatten := by
  rw [sha256Bytes, foldl_write_eq chunks Digest.init (by simp [Digest.init])]

/-- C4: For every input string, the sanitized filename contains no path
separator character (neither `'/'` nor `'\'`) and is never empty, `"."`
or `".."`. -/
theorem sanitized_name_safe (s : String) :
    '/' ∉ (sanitizeFilename s).toList ∧ '\\' ∉ (sanitizeFilename s).toList ∧
    sanitizeFilename s ≠ "" ∧ sanitizeFilename s ≠ "." ∧ sanitizeFilename s ≠ ".." := by
  obtain ⟨h1, h2, h3, h4, h5⟩ := sanitizeList_spec s.toList
  exact ⟨h1, h2, fun h => h3 (congrArg String.data h),
    fun h => h4 (congrArg String.data h), fun h => h5 (congrArg String.data h)⟩

/-- C5 counterexample: With the Unix separator rules the server runs
under, backslash-separated leading components are not discarded:
`"..\..\x"` does not resolve to the leaf `"x"`, the backslashes are merely
replaced by underscores. -/
theorem backslash_components_not_discarded :
    sanitizeFilename "..\\..\\x" = ".._.._x" ∧ sanitizeFilename "..\\..\\x" ≠ "x" := by
  constructor <;> decide

/-- C5 amended: Sanitization resolves to the final path segment with
respect to forward slashes only; a backslash is an ordinary character that
is afterwards replaced by an underscore; the fixed fallback name is
substituted when the result is empty, `"."` or `".."`. -/
theorem sanitize_resolves_forward_slash_leaf :
    (∀ pre leaf : List Char, leaf ≠ [] → '/' ∉ leaf →
        sanitizeList (pre ++ '/' :: leaf) = sanitizeList leaf) ∧
    (∀ f : List Char, '\\' ∉ sanitizeList f) ∧
    sanitizeFilename "" = "unnamed_file" ∧
    sanitizeFilename "." = "unnamed_file" ∧
    sanitizeFilename ".." = "unnamed_file" := by
  refine ⟨?_, fun f => (sanitizeList_spec f).2.1, by decide, by decide, by decide⟩
  intro pre leaf hne hns
  simp only [sanitizeList, goBase_append_slash pre leaf hne hns,
    goBase_of_no_slash leaf hne hns]

/-- C1: A streaming session that received metadata and any chunks, then
a commit whose claimed digest differs from the computed one, deletes the
file at the resolved path (no artifact remains) and returns the distinct
data-loss error, never success and never a generic internal I/O error. -/
theorem streaming_mismatch_deletes_and_dataloss (fname title claimed : String)
    (chunks : List (List Nat))
    (hne : claimed ≠ hexDigest ((chunks.foldl Digest.write Digest.init).sum)) :
    runUpload (initialState [])
        (Event.msg (Payload.metadata fname title) :: chunkEvents chunks
          ++ [Event.msg (Payload.finishCommit claimed)]) false
      = (Except.error (UploadErr.dataLoss "checksum mismatch"), [])
    ∧ ∀ m, UploadErr.dataLoss "checksum mismatch" ≠ UploadErr.internal m := by
  refine ⟨?_, fun m h => by cases h⟩
  simp only [initialState, runUpload]
  rw [fsSet_nil]
  simp only [List.append_eq]
  rw [runUpload_chunks]
  simp only [runUpload]
  rw [if_pos (Ne.symm hne), List.nil_append, fsRemove_single]

theorem streaming_mismatch_deletes_and_dataloss_witness :
    ("deadbeef" ≠ hexDigest (([strBytes "abc", strBytes "def"].foldl Digest.write
        Digest.init).sum)) ∧
    runUpload (initialState [])
        (Event.msg (Payload.metadata "report.pdf" "Q1")
          :: chunkEvents [strBytes "abc", strBytes "def"]
          ++ [Event.msg (Payload.finishCommit "deadbeef")]) false
      = (Except.error (UploadErr.dataLoss "checksum mismatch"), []) :=
  ⟨by decide, (streaming_mismatch_deletes_and_dataloss "report.pdf" "Q1" "deadbeef"
      [strBytes "abc", strBytes "def"] (by decide)).1⟩

/-- C3: A streaming session of metadata, chunks, then a commit whose
digest equals the computed digest of the concatenated chunks returns the
success outcome with `size` the sum of the chunk lengths and `hashOk`
true, and the stored file is exactly the concatenation of the chunks in
receipt order. -/
theorem streaming_commit_success (fname title claimed : String)
    (chunks : List (List Nat))
    (hok : claimed = hexDigest ((chunks.foldl Digest.write Digest.init).sum)) :
    runUpload (initialState [])
        (Event.msg (Payload.metadata fname title) :: chunkEvents chunks
          ++ [Event.msg (Payload.finishCommit claimed)]) false
      = (Except.ok ⟨"Upload successful and verified", (chunks.map List.length).sum, true⟩,
         [(safeJoin (sanitizeFilename fname), chunks.flatten)]) := by
  simp only [initialState, runUpload]
  rw [fsSet_nil]
  simp only [List.append_eq]
  rw [runUpload_chunks]
  simp only [runUpload]
  rw [if_neg (not_not_intro hok.symm)]
  simp

theorem streaming_commit_success_witness :
    ("bef57ec7f53a6d40beb640a780a639c83bc29ac8a9816f1fc6c5c6dcd93c4721"
        = hexDigest (([strBytes "abc", strBytes "def"].foldl Digest.write
            Digest.init).sum)) ∧
    runUpload (initialState [])
        (Event.msg (Payload.metadata "report.pdf" "Q1")
          :: chunkEvents [strBytes "abc", strBytes "def"]
          ++ [Event.msg (Payload.finishCommit
              "bef57ec7f53a6d40beb640a780a639c83bc29ac8a9816f1fc6c5c6dcd93c4721")]) false
      = (Except.ok ⟨"Upload successful and verified", 6, true⟩,
         [("uploads/report.pdf", strBytes "abcdef")]) := by
  refine ⟨by decide, ?_⟩
  rw [streaming_commit_success "report.pdf" "Q1"
    "bef57ec7f53a6d40beb640a780a639c83bc29ac8a9816f1fc6c5c6dcd93c4721"
    [strBytes "abc", strBytes "def"] (by decide)]
  decide

/-- C6 counterexample: A duplicate metadata message in the receiving
state aborts the session with the protocol-violation error, but the partial
artifact written so far is retained at the resolved path, contradicting the
claim that no partial artifact remains. -/
theorem duplicate_metadata_retains_artifact :
    runUpload (initialState [])
        [Event.msg (Payload.metadata "notes.txt" "t"),
         Event.msg (Payload.chunk (strBytes "ab")),
         Event.msg (Payload.metadata "x" "y")] false
      = (Except.error (UploadErr.invalidArgument "metadata already received"),
         [("uploads/notes.txt", strBytes "ab")])
    ∧ fsGet [("uploads/notes.txt", strBytes "ab")]
        (safeJoin (sanitizeFilename "notes.txt")) = some (strBytes "ab") := by
  constructor <;> decide

/-- C6 amended: A duplicate metadata message after the sink was opened
aborts the session immediately with the protocol-violation error, but the
partially-written file is retained at the resolved path (it is closed, not
deleted). -/
theorem duplicate_metadata_aborts_but_retains (fname title fname2 title2 : String)
    (chunks : List (List Nat)) (rest : List Event) (endErr : Bool) :
    runUpload (initialState [])
        (Event.msg (Payload.metadata fname title) :: chunkEvents chunks
          ++ Event.msg (Payload.metadata fname2 title2) :: rest) endErr
      = (Except.error (UploadErr.invalidArgument "metadata already received"),
         [(safeJoin (sanitizeFilename fname), chunks.flatten)]) := by
  simp only [initialState, runUpload]
  rw [fsSet_nil]
  simp only [List.append_eq]
  rw [runUpload_chunks]
  simp [runUpload]

/-- C8: A streaming session whose first message is a chunk or a commit
aborts with the protocol-violation error, produces no success outcome, and
never opens a sink: the file system is unchanged (still empty). -/
theorem pre_metadata_message_aborts (data : List Nat) (claimed : String)
    (rest rest2 : List Event) (endErr endErr2 : Bool) :
    runUpload (initialState []) (Event.msg (Payload.chunk data) :: rest) endErr
      = (Except.error (UploadErr.invalidArgument "metadata must be sent first"), [])
    ∧ runUpload (initialState []) (Event.msg (Payload.finishCommit claimed) :: rest2) endErr2
      = (Except.error (UploadErr.invalidArgument "no file data received"), []) := by
  constructor <;> simp [runUpload, initialState]

/-- C9: A session on which cancellation is observed after any number of
chunks (also zero, also before metadata) removes the file it created and
returns the distinct cancellation outcome, which is not an internal I/O
error. -/
theorem cancellation_cleanup (fname title : String) (chunks : List (List Nat))
    (rest rest2 : List Event) (endErr endErr2 : Bool) :
    runUpload (initialState [])
        (Event.msg (Payload.metadata fname title) :: chunkEvents chunks
          ++ Event.cancel :: rest) endErr
      = (Except.error UploadErr.canceled, [])
    ∧ runUpload (initialState []) (Event.cancel :: rest2) endErr2
      = (Except.error UploadErr.canceled, [])
    ∧ ∀ m, UploadErr.canceled ≠ UploadErr.internal m := by
  refine ⟨?_, by simp [runUpload, initialState], fun m h => by cases h⟩
  simp only [initialState, runUpload]
  rw [fsSet_nil]
  simp only [List.append_eq]
  rw [runUpload_chunks]
  simp only [runUpload]
  rw [List.nil_append, fsRemove_single]

/-- C10: A success outcome arises only in the branch handling an
explicit commit message and always carries `hashOk = true`; a stream that
ends without a commit (after metadata and any chunks) yields the
"stream closed without commit" failure when it closes cleanly and the
transport failure otherwise — never a success with `hashOk = false`. -/
theorem success_only_via_commit :
    (∀ (events : List Event) (st : SessionState) (endErr : Bool)
        (resp : UploadResponse) (fs2 : FS),
        runUpload st events endErr = (Except.ok resp, fs2) →
        resp.hashOk = true ∧ resp.message = "Upload successful and verified") ∧
    (∀ (fname title : String) (chunks : List (List Nat)),
        runUpload (initialState [])
            (Event.msg (Payload.metadata fname title) :: chunkEvents chunks) false
          = (Except.error (UploadErr.invalidArgument "stream closed without commit"),
             [(safeJoin (sanitizeFilename fname), chunks.flatten)])) ∧
    (∀ (fname title : String) (chunks : List (List Nat)),
        runUpload (initialState [])
            (Event.msg (Payload.metadata fname title) :: chunkEvents chunks) true
          = (Except.error UploadErr.streamFailure,
             [(safeJoin (sanitizeFilename fname), chunks.flatten)])) := by
  refine ⟨?_, ?_, ?_⟩
  · intro events
    induction events with
    | nil =>
        intro st endErr resp fs2 h
        cases endErr <;> simp [runUpload] at h
    | cons e rest ih =>
        intro st endErr resp fs2 h
        cases e with
        | cancel =>
            cases hf : st.file with
            | none => simp [runUpload, hf] at h
            | some path => simp [runUpload, hf] at h
        | msg p =>
            cases p with
            | metadata f t =>
                cases hf : st.file with
                | some path => simp [runUpload, hf] at h
                | none =>
                    simp only [runUpload, hf] at h
                    exact ih _ _ _ _ h
            | chunk d =>
                cases hf : st.file with
                | none => simp [runUpload, hf] at h
                | some path =>
                    simp only [runUpload, hf] at h
                    exact ih _ _ _ _ h
            | finishCommit c =>
                cases hf : st.file with
                | none => simp [runUpload, hf] at h
                | some path =>
                    simp only [runUpload, hf] at h
                    split at h
                    · exact absurd h (by simp)
                    · rw [Prod.mk.injEq] at h
                      obtain ⟨h1, h2⟩ := h
                      injection h1 with h1
                      subst h1
                      exact ⟨rfl, rfl⟩
            | unknown => simp [runUpload] at h
  · intro fname title chunks
    simp only [initialState, runUpload]
    rw [fsSet_nil, ← List.append_nil (chunkEvents chunks), runUpload_chunks]
    simp [runUpload]
  · intro fname title chunks
    simp only [initialState, runUpload]
    rw [fsSet_nil, ← List.append_nil (chunkEvents chunks), runUpload_chunks]
    simp [runUpload]

theorem success_only_via_commit_witness :
    runUpload (initialState [])
        [Event.msg (Payload.metadata "a.txt" "t"),
         Event.msg (Payload.finishCommit
           "e3b0c44298fc1c149afbf4c8996fb92427ae41e4649b934ca495991b7852b855")] false
      = (Except.ok ⟨"Upload successful and verified", 0, true⟩, [("uploads/a.txt", [])])
    ∧ (⟨"Upload successful and verified", 0, true⟩ : UploadResponse).hashOk = true :=
  ⟨by decide,
   (success_only_via_commit.1
      [Event.msg (Payload.metadata "a.txt" "t"),
       Event.msg (Payload.finishCommit
         "e3b0c44298fc1c149afbf4c8996fb92427ae41e4649b934ca495991b7852b855")]
      (initialState []) false ⟨"Upload successful and verified", 0, true⟩
      [("uploads/a.txt", [])] (by decide)).1⟩

/-- C7 counterexample: The unary handler does not delete the written
file on a digest mismatch and does not report a data-loss error: it stores
the data and answers a plain success response with `hashOk = false`. -/
theorem unary_mismatch_keeps_file :
    uploadFile "a.txt" "t" (strBytes "abc")
        "0000000000000000000000000000000000000000000000000000000000000000" []
      = (Except.ok ⟨"ok", 3, false⟩, [("uploads/a.txt", strBytes "abc")]) := by
  decide

/-- C7 amended: On a digest mismatch the unary handler writes the file
at the resolved path anyway and returns a success response whose `hashOk`
flag is false; the mismatch is signalled only through that flag, not by a
data-loss error or deletion. -/
theorem unary_mismatch_reports_flag_only (fname title : String) (data : List Nat)
    (claimed : String) (fs : FS) (hne : claimed ≠ hexDigest (sha256Bytes data)) :
    uploadFile fname title data claimed fs
      = (Except.ok ⟨"ok", data.length, false⟩,
         fsSet fs (safeJoin (sanitizeFilename fname)) data) := by
  simp only [uploadFile]
  rw [(beq_eq_false_iff_ne.mpr (Ne.symm hne) :
    (hexDigest (sha256Bytes data) == claimed) = false)]

theorem unary_mismatch_reports_flag_only_witness :
    ("0000000000000000000000000000000000000000000000000000000000000000"
        ≠ hexDigest (sha256Bytes (strBytes "abc"))) ∧
    uploadFile "a.txt" "t" (strBytes "abc")
        "0000000000000000000000000000000000000000000000000000000000000000" []
      = (Except.ok ⟨"ok", 3, false⟩, [("uploads/a.txt", strBytes "abc")]) := by
  refine ⟨by decide, ?_⟩
  rw [unary_mismatch_reports_flag_only "a.txt" "t" (strBytes "abc")
    "0000000000000000000000000000000000000000000000000000000000000000" [] (by decide)]
  decide

end FileUpload
